import Mathlib

/-!
Shallow embedding of the circulation and inventory consistency engine of
`library.py` (single-file library circulation manager: Catalog Store,
Integrity Reconciler, Circulation Engine).

Dates are modelled as natural day numbers: the source stores ISO
`YYYY-MM-DD` strings, whose lexicographic order coincides with
chronological order, and `parse_date` / `date_str` are mutually inverse
bijections between those strings and calendar days, so a linearly ordered
`Nat` with `+ 14` for `timedelta(days=14)` is a faithful image of the
source's date handling.  All other fields keep the source's types: ids are
integers (`Nat`), member ids and copy statuses are strings.  Python's
in-place mutation of the object found by a linear scan is rendered as
`updateFirst`, which rewrites the first matching list element.
-/

/-- `Work` dataclass, `library.py` lines 78-85. -/
structure Work where
  work_id : Nat
  title : String
  author_key : String
  author_display : String
  registered_date : Nat
  deleted_date : Option Nat
deriving DecidableEq, Repr

/-- `Copy` dataclass, lines 87-93.  `status` is one of the strings
`"available"`, `"loaned"`, `"deleted"` in intended states, but the field is
an arbitrary string exactly as in the source. -/
structure Copy where
  copy_id : Nat
  work_id : Nat
  status : String
  registered_date : Nat
  deleted_date : Option Nat
deriving DecidableEq, Repr

/-- `Member` dataclass, lines 95-101. -/
structure Member where
  student_id : String
  name : String
  phone : String
  password : String
  registered_date : Nat
deriving DecidableEq, Repr

/-- `Loan` dataclass, lines 103-111. -/
structure Loan where
  loan_id : Nat
  copy_id : Nat
  work_id : Nat
  student_id : String
  loan_date : Nat
  due_date : Nat
  return_date : Option Nat
deriving DecidableEq, Repr

/-- The in-memory catalog (the five collections of `Repository`,
lines 115-151) together with the service state: `LibraryService.today` and
the three id counters initialised at lines 266-272. -/
structure LibState where
  today : Nat
  works : List Work
  copies : List Copy
  members : List Member
  loans : List Loan
  deleted_works : List Work
  next_work_id : Nat
  next_copy_id : Nat
  next_loan_id : Nat
deriving DecidableEq, Repr

/-- `DUE_DAYS = 14`, line 39. -/
def DUE_DAYS : Nat := 14

/-- Rewrite the first element satisfying `p`; models the source's in-place
mutation of the first object found by a linear scan. -/
def updateFirst (p : α → Bool) (f : α → α) : List α → List α
  | [] => []
  | x :: xs => if p x then f x :: xs else x :: updateFirst p f xs

/-! ## Integrity Reconciler (`_validate_and_fix_data_integrity`, lines 288-304) -/

/-- Step 1, `_fix_deleted_work_references`, lines 306-319: a copy whose work
is in `deleted_works` and whose own `deleted_date` is unset gets
`deleted_date := today` and, if its status is `"available"`, status
`"deleted"`. -/
def markDeletedCopy (today : Nat) (deletedIds : List Nat) (c : Copy) : Copy :=
  if deletedIds.contains c.work_id && c.deleted_date == none then
    { c with deleted_date := some today,
             status := if c.status == "available" then "deleted" else c.status }
  else c

/-- Step 1 of the Reconciler, applied to the whole copies list. -/
def fix_deleted_work_references (s : LibState) : LibState :=
  { s with copies :=
      s.copies.map (markDeletedCopy s.today (s.deleted_works.map (·.work_id))) }

/-- Step 2, `_remove_invalid_references`, lines 321-343.  As in the source,
`valid_copy_ids` is computed from the copies list *before* the copies with
invalid work references are dropped (lines 323-330). -/
def remove_invalid_references (s : LibState) : LibState :=
  let validWorkIds := s.works.map (·.work_id)
  let validStudentIds := s.members.map (·.student_id)
  let validCopyIds := s.copies.map (·.copy_id)
  let copies' := s.copies.filter (fun c => validWorkIds.contains c.work_id)
  let loans' := s.loans.filter (fun l => validStudentIds.contains l.student_id)
  let loans'' := loans'.filter (fun l => validCopyIds.contains l.copy_id)
  { s with copies := copies', loans := loans'' }

/-- Force-close one loan record as the duplicate-open-loan repair does:
`loan.return_date = loan.loan_date`, line 361. -/
def closeLoan (l : Loan) : Loan := { l with return_date := some l.loan_date }

/-- Helper for `openGroup`, walking the loans with their positions. -/
def groupGo (cid : Nat) : Nat → List Loan → List (Nat × Loan)
  | _, [] => []
  | i, l :: rest =>
    if l.copy_id == cid && l.return_date == none then
      (i, l) :: groupGo cid (i + 1) rest
    else groupGo cid (i + 1) rest

/-- The open loans on a given copy, paired with their positions in the
stored loans list (`active_loans_by_copy`, lines 348-353; the groups keep
storage order, and the positions stand for Python object identity). -/
def openGroup (loans : List Loan) (cid : Nat) : List (Nat × Loan) :=
  groupGo cid 0 loans

/-- Stable insertion for a descending sort on `loan_date`. -/
def insertDesc (x : Nat × Loan) : List (Nat × Loan) → List (Nat × Loan)
  | [] => [x]
  | y :: ys =>
    if y.2.loan_date ≤ x.2.loan_date then x :: y :: ys
    else y :: insertDesc x ys

/-- Stable descending sort on `loan_date`, mirroring CPython's stable
`loans.sort(key=lambda x: x.loan_date, reverse=True)` at line 359 (elements
with equal keys keep their original relative order). -/
def sortDesc : List (Nat × Loan) → List (Nat × Loan)
  | [] => []
  | x :: xs => insertDesc x (sortDesc xs)

/-- Position of the loan kept open for a copy: the head of its group after
the stable descending sort (`loans[0]` is spared by the `loans[1:]` slice,
lines 359-361). -/
def keptIdx (loans : List Loan) (cid : Nat) : Option Nat :=
  ((sortDesc (openGroup loans cid)).head?).map Prod.fst

/-- Whether the loan at position `i` is force-closed by step 3: it is open,
its copy has more than one open loan, and it is not the kept one. -/
def closeCond (loans : List Loan) (i : Nat) (l : Loan) : Bool :=
  l.return_date == none && decide (1 < (openGroup loans l.copy_id).length)
    && !(keptIdx loans l.copy_id == some i)

/-- Helper for `fix_duplicate_loans`, rewriting each loan by position. -/
def fixDupGo (orig : List Loan) : Nat → List Loan → List Loan
  | _, [] => []
  | i, l :: rest =>
    (if closeCond orig i l then closeLoan l else l) :: fixDupGo orig (i + 1) rest

/-- Step 3, `_fix_duplicate_loans`, lines 345-365: for every copy with more
than one open loan, keep open only the most recent one (first in storage
order on ties, by sort stability) and force-close the rest. -/
def fix_duplicate_loans (s : LibState) : LibState :=
  { s with loans := fixDupGo s.loans 0 s.loans }

/-- Step 4, `_fix_date_logic`, lines 367-389: overwrite `due_date` with
`loan_date + 14` when different, and pull a `return_date` earlier than the
`loan_date` up to the `loan_date`. -/
def dateFixDue (l : Loan) : Loan :=
  if l.due_date ≠ l.loan_date + DUE_DAYS
  then { l with due_date := l.loan_date + DUE_DAYS } else l

/-- The `return_date < loan_date` repair at lines 381-386, applied after
the due-date repair as in the source loop body. -/
def dateFixRet (l : Loan) : Loan :=
  match l.return_date with
  | some r => if r < l.loan_date then { l with return_date := some l.loan_date } else l
  | none => l

/-- One loan as rewritten by the body of the `_fix_date_logic` loop. -/
def dateFix (l : Loan) : Loan := dateFixRet (dateFixDue l)

/-- Step 4 applied to the whole loans list. -/
def fix_date_logic (s : LibState) : LibState :=
  { s with loans := s.loans.map dateFix }

/-- `_validate_and_fix_data_integrity`, lines 288-304: the Integrity
Reconciler, running the four repair steps in order once at startup. -/
def reconcile (s : LibState) : LibState :=
  fix_date_logic (fix_duplicate_loans (remove_invalid_references (fix_deleted_work_references s)))

/-! ## Input validators (lines 407-455) -/

/-- Character-range test embedding the source regexes' character classes;
`Char` order is code-point order, as in Python. -/
def charBetween (lo hi c : Char) : Bool :=
  lo.toNat ≤ c.toNat && c.toNat ≤ hi.toNat

/-- The class `[0-9]`. -/
def isDigitCh (c : Char) : Bool := charBetween '0' '9' c

/-- The year alternation `193[1-9]|19[4-9][0-9]|20[01][0-9]|202[0-5]` of the
student-id regex at line 410. -/
def yearAlt (a b c d : Char) : Bool :=
  (charBetween '1' '1' a && charBetween '9' '9' b && charBetween '3' '3' c
    && charBetween '1' '9' d)
  || (charBetween '1' '1' a && charBetween '9' '9' b && charBetween '4' '9' c
    && isDigitCh d)
  || (charBetween '2' '2' a && charBetween '0' '0' b
    && (charBetween '0' '0' c || charBetween '1' '1' c) && isDigitCh d)
  || (charBetween '2' '2' a && charBetween '0' '0' b && charBetween '2' '2' c
    && charBetween '0' '5' d)

/-- `_validate_student_id`, lines 407-414: full match of
`^(193[1-9]|19[4-9][0-9]|20[01][0-9]|202[0-5])[0-9]{5}$`. -/
def validate_student_id (sid : String) : Bool :=
  match sid.data with
  | [a, b, c, d, e, f, g, h, i] =>
    yearAlt a b c d && isDigitCh e && isDigitCh f && isDigitCh g && isDigitCh h
      && isDigitCh i
  | _ => false

/-- The class `[가-힣]` of precomposed Hangul syllables. -/
def isHangulCh (c : Char) : Bool := charBetween '가' '힣' c

/-- `_validate_name`, lines 416-436: length 2 to 4 and full match of
`^[가-힣]+$`. -/
def validate_name (name : String) : Bool :=
  2 ≤ name.length && name.length ≤ 4 && name.data.all isHangulCh

/-- `_validate_phone`, lines 438-445: full match of
`^01(0-[0-9]\x7b4\x7d|[1-9]-[0-9]\x7b3,4\x7d)-[0-9]\x7b4\x7d$`. -/
def validate_phone (phone : String) : Bool :=
  match phone.data with
  | ['0', '1', x, '-', a, b, c, d, '-', e, f, g, h] =>
    (charBetween '0' '0' x || charBetween '1' '9' x)
      && [a, b, c, d, e, f, g, h].all isDigitCh
  | ['0', '1', x, '-', a, b, c, '-', e, f, g, h] =>
    charBetween '1' '9' x && [a, b, c, e, f, g, h].all isDigitCh
  | _ => false

/-- `_validate_password`, lines 447-455: length 4 to 20 and no space, tab or
newline character. -/
def validate_password (pw : String) : Bool :=
  4 ≤ pw.length && pw.length ≤ 20
    && !(pw.data.contains ' ') && !(pw.data.contains '\t')
    && !(pw.data.contains '\n')

/-- Python's `str.strip()`: drop leading and trailing whitespace. -/
def strTrim (s : String) : String :=
  ⟨((s.data.dropWhile Char.isWhitespace).reverse.dropWhile Char.isWhitespace).reverse⟩

/-- `norm_author_key`, lines 64-65: strip, lower-case, and collapse internal
whitespace runs to single spaces. -/
def norm_author_key (a : String) : String :=
  " ".intercalate (((strTrim a).toLower.split Char.isWhitespace).filter (fun t => t ≠ ""))

/-! ## Circulation Engine operations -/

/-- `_find_work`, lines 588-595: lookup by id that hides works listed in
`deleted_works`. -/
def find_work (s : LibState) (wid : Nat) : Option Work :=
  let deletedIds := s.deleted_works.map (·.work_id)
  s.works.find? (fun w => w.work_id == wid && !(deletedIds.contains w.work_id))

/-- `_find_available_copy`, lines 597-604. -/
def find_available_copy (s : LibState) (wid : Nat) : Option Copy :=
  let deletedIds := s.deleted_works.map (·.work_id)
  s.copies.find? (fun c => c.work_id == wid && !(deletedIds.contains c.work_id)
    && c.deleted_date == none && c.status == "available")

/-- `set_today`, lines 460-465: refuses to move the virtual today backward. -/
def set_today (s : LibState) (d : Nat) : LibState :=
  if d < s.today then s else { s with today := d }

/-- `register_member`, lines 607-664.  Returns the new state and whether a
member was appended; every failure path leaves the state unchanged.  The
four emptiness pre-checks at lines 609-620 (`not x or not x.strip()`) are
each equivalent to the trimmed string being empty. -/
def register_member (s : LibState) (sid0 name0 phone0 pw0 : String) :
    LibState × Bool :=
  if strTrim sid0 == "" || strTrim name0 == "" || strTrim phone0 == "" ||
      strTrim pw0 == "" then
    (s, false)
  else
    let sid := strTrim sid0
    let name := strTrim name0
    let phone := strTrim phone0
    let pw := strTrim pw0
    if !(validate_student_id sid) then (s, false)
    else if !(validate_name name) then (s, false)
    else if !(validate_phone phone) then (s, false)
    else if !(validate_password pw) then (s, false)
    else if s.members.any (fun m => m.student_id == sid) then (s, false)
    else if s.members.any (fun m => m.phone == phone) then (s, false)
    else ({ s with members := s.members ++ [⟨sid, name, phone, pw, s.today⟩] }, true)

/-- `remove_member`, lines 676-699: hard delete, blocked while the member
has an open loan. -/
def remove_member (s : LibState) (sid : String) : LibState × Bool :=
  if !(s.members.any (fun m => m.student_id == sid)) then (s, false)
  else if s.loans.any (fun l => l.student_id == sid && l.return_date == none) then
    (s, false)
  else ({ s with members := s.members.eraseP (fun m => m.student_id == sid) }, true)

/-- The `copies` new copy records appended by `add_work` (lines 509-518). -/
def mkCopies (today wid firstId : Nat) : Nat → List Copy
  | 0 => []
  | n + 1 => ⟨firstId, wid, "available", today, none⟩ :: mkCopies today wid (firstId + 1) n

/-- `add_work`, lines 468-519: merge into an existing non-deleted work with
the same `(title, author_key)` or create a new work, then append the
requested copies. -/
def add_work (s : LibState) (title author_display : String) (copies : Int) :
    LibState × Bool :=
  if strTrim title == "" then (s, false)
  else if strTrim author_display == "" then (s, false)
  else if copies < 1 then (s, false)
  else
    let author_key := norm_author_key author_display
    let existing := s.works.filter (fun w =>
      w.title == strTrim title && w.author_key == author_key && w.deleted_date == none)
    let s1w : LibState × Work :=
      match existing.head? with
      | some w => (s, w)
      | none =>
        let w : Work := ⟨s.next_work_id, strTrim title, author_key,
          strTrim author_display, s.today, none⟩
        ({ s with works := s.works ++ [w], next_work_id := s.next_work_id + 1 }, w)
    let s1 := s1w.1
    let work := s1w.2
    if !(s1.works.any (fun w => w.work_id == work.work_id)) then
      -- `_validate_fk` rollback branch at lines 500-507 (never taken: the
      -- work was just found in, or appended to, the works list)
      ({ s1 with works := s1.works.eraseP (fun w => w == work) }, false)
    else
      let count := (max 1 copies).toNat
      ({ s1 with copies := s1.copies ++ mkCopies s1.today work.work_id s1.next_copy_id count,
                 next_copy_id := s1.next_copy_id + count }, true)

/-- The per-copy cascade of `delete_work` (lines 539-543): a copy of the
work whose `deleted_date` is unset gets `deleted_date := today` and, if
available, status `"deleted"`; all other copies are untouched. -/
def cascadeCopy (today wid : Nat) (c : Copy) : Copy :=
  if c.work_id == wid && c.deleted_date == none then
    { c with deleted_date := some today,
             status := if c.status == "available" then "deleted" else c.status }
  else c

/-- `delete_work`, lines 521-546: logical delete of a work with cascade to
its copies, blocked while an open loan references the work. -/
def delete_work (s : LibState) (wid : Nat) : LibState × Bool :=
  match find_work s wid with
  | none => (s, false)
  | some work =>
    if work.deleted_date ≠ none then (s, false)
    else if s.loans.any (fun l => l.work_id == wid && l.return_date == none) then
      (s, false)
    else
      ({ s with
          works := updateFirst (fun w => w.work_id == wid)
            (fun w => { w with deleted_date := some s.today }) s.works,
          deleted_works := s.deleted_works ++ [{ work with deleted_date := some s.today }],
          copies := s.copies.map (cascadeCopy s.today wid) }, true)

/-- `cp.status = "loaned"` at line 740. -/
def markLoaned (c : Copy) : Copy := { c with status := "loaned" }

/-- `loan`, lines 702-756.  Returns the new state and whether a loan was
created.  The member scan at line 712 repeats the `_validate_fk` member
check verbatim and is folded into one test here. -/
def loanOp (s : LibState) (sid : String) (wid : Nat) : LibState × Bool :=
  if !(s.works.any (fun w => w.work_id == wid)) then (s, false)
  else if !(s.members.any (fun m => m.student_id == sid)) then (s, false)
  else
    match find_work s wid with
    | none => (s, false)
    | some work =>
      if work.deleted_date ≠ none then (s, false)
      else
        match find_available_copy s wid with
        | none => (s, false)
        | some cp =>
          if s.loans.any (fun l => l.copy_id == cp.copy_id && l.return_date == none) then
            (s, false)
          else if !(s.copies.any (fun c => c.copy_id == cp.copy_id)) then (s, false)
          else
            ({ s with
                copies := updateFirst
                  (fun c => c.work_id == wid
                    && !((s.deleted_works.map (·.work_id)).contains c.work_id)
                    && c.deleted_date == none && c.status == "available")
                  markLoaned s.copies,
                loans := s.loans ++
                  [⟨s.next_loan_id, cp.copy_id, wid, sid, s.today, s.today + DUE_DAYS, none⟩],
                next_loan_id := s.next_loan_id + 1 }, true)

/-- The copy-status restore of `return_copy` (lines 779-785): a loaned copy
becomes `"available"` only when its `deleted_date` is unset; every other
copy, and a loaned copy that is logically deleted, is left unchanged. -/
def restoreCopy (c : Copy) : Copy :=
  if c.status == "loaned" then
    { c with status := if c.deleted_date == none then "available" else c.status }
  else c

/-- `loan.return_date = date_str(self.today)` at line 786. -/
def setReturn (today : Nat) (l : Loan) : Loan := { l with return_date := some today }

/-- `return_copy`, lines 758-797.  Returns the new state and, on success,
the overdue flag `return_date > due_date`; every failure path leaves the
state unchanged. -/
def return_copy (s : LibState) (lid : Nat) : LibState × Option Bool :=
  match s.loans.find? (fun l => l.loan_id == lid) with
  | none => (s, none)
  | some loan =>
    if loan.return_date ≠ none then (s, none)
    else if !(s.works.any (fun w => w.work_id == loan.work_id)) then (s, none)
    else if !(s.members.any (fun m => m.student_id == loan.student_id)) then (s, none)
    else if !(s.copies.any (fun c => c.copy_id == loan.copy_id)) then (s, none)
    else
      ({ s with
          copies := updateFirst (fun c => c.copy_id == loan.copy_id) restoreCopy s.copies,
          loans := updateFirst (fun l => l.loan_id == lid) (setReturn s.today) s.loans },
        some (decide (loan.due_date < s.today)))

/-! ## Engine operation sequences -/

/-- One Circulation Engine call, as reachable from the menu loop. -/
inductive Op where
  | registerMember (sid name phone pw : String)
  | removeMember (sid : String)
  | addWork (title author : String) (copies : Int)
  | deleteWork (wid : Nat)
  | doLoan (sid : String) (wid : Nat)
  | returnCopy (lid : Nat)
  | setToday (d : Nat)

/-- Apply one engine operation, discarding the report value. -/
def applyOp (op : Op) (s : LibState) : LibState :=
  match op with
  | .registerMember a b c d => (register_member s a b c d).1
  | .removeMember a => (remove_member s a).1
  | .addWork t a k => (add_work s t a k).1
  | .deleteWork w => (delete_work s w).1
  | .doLoan a w => (loanOp s a w).1
  | .returnCopy l => (return_copy s l).1
  | .setToday d => set_today s d

/-- Apply a sequence of engine operations in order. -/
def applyOps (ops : List Op) (s : LibState) : LibState :=
  ops.foldl (fun s op => applyOp op s) s

/-! ## Invariant predicates named by the claims -/

/-- Number of open loans referencing a given copy. -/
def openCount (loans : List Loan) (cid : Nat) : Nat :=
  (loans.filter (fun l => l.copy_id == cid && l.return_date == none)).length

/-- At most one open loan per copy. -/
def atMostOneOpen (s : LibState) : Prop :=
  ∀ cid, openCount s.loans cid ≤ 1

/-- Every loan is due exactly 14 days after its loan date. -/
def dueDateLaw (s : LibState) : Prop :=
  ∀ l ∈ s.loans, l.due_date = l.loan_date + DUE_DAYS

/-- A copy with status `"deleted"` carries a deletion date. -/
def deletedImpliesDate (s : LibState) : Prop :=
  ∀ c ∈ s.copies, c.status = "deleted" → c.deleted_date ≠ none

/-- The biconditional claimed for copies: status `"deleted"` iff
`deleted_date` set. -/
def statusDeletedIff (s : LibState) : Prop :=
  ∀ c ∈ s.copies, (c.status = "deleted" ↔ c.deleted_date ≠ none)

/-- No dangling references: copies point at existing works, loans at
existing copies and members. -/
def noDangling (s : LibState) : Prop :=
  (∀ c ∈ s.copies, ∃ w ∈ s.works, w.work_id = c.work_id) ∧
  (∀ l ∈ s.loans, (∃ c ∈ s.copies, c.copy_id = l.copy_id) ∧
    (∃ m ∈ s.members, m.student_id = l.student_id))

/-- The largest `loan_date` among a group of indexed loans. -/
def maxLoanDate (g : List (Nat × Loan)) : Nat :=
  (g.map (fun p => p.2.loan_date)).foldr max 0

/-- Numeric value of a digit character. -/
def digitVal (c : Char) : Nat := c.toNat - 48

/-- Numeric value of the four-character year that opens a student id. -/
def yearOf (cs : List Char) : Nat :=
  match cs with
  | a :: b :: c :: d :: _ =>
    1000 * digitVal a + 100 * digitVal b + 10 * digitVal c + digitVal d
  | _ => 0

/-- The conjunction of checks `register_member` performs on the trimmed
inputs (lines 628-653): the four validators and the two duplicate scans.
The four emptiness pre-checks of `register_member` are subsumed: every
validator rejects the empty string. -/
def registerOk (s : LibState) (sid name phone pw : String) : Bool :=
  validate_student_id sid && validate_name name && validate_phone phone &&
    validate_password pw && !(s.members.any (fun m => m.student_id == sid)) &&
    !(s.members.any (fun m => m.phone == phone))

/-! ## Concrete states used by counterexamples and witnesses -/

/-- A valid member record used by several example states. -/
def exMember : Member := ⟨"202300001", "김철수", "010-1111-2222", "pass1234", 1⟩

/-- A live work with id 1. -/
def exWork1 : Work := ⟨1, "객체지향", "작가", "작가", 1, none⟩

/-- A logically deleted work with id 9. -/
def exWork9del : Work := ⟨9, "알고리즘", "작가", "작가", 1, some 1⟩

/-- Load state whose only copy references the missing work 9 while an open
loan references that copy: the reconciler drops the copy but keeps the
loan. -/
def exC1state : LibState :=
  { today := 5, works := [], copies := [⟨1, 9, "available", 1, none⟩],
    members := [exMember], loans := [⟨1, 1, 9, "202300001", 3, 10, none⟩],
    deleted_works := [], next_work_id := 1, next_copy_id := 2, next_loan_id := 2 }

/-- The same load state, for the idempotence claim: the second reconciler
run removes the loan left dangling by the first. -/
def exC2state : LibState :=
  { today := 5, works := [], copies := [⟨1, 9, "available", 1, none⟩],
    members := [exMember], loans := [⟨1, 1, 9, "202300001", 3, 10, none⟩],
    deleted_works := [], next_work_id := 1, next_copy_id := 2, next_loan_id := 2 }

/-- Load state with a loaned copy of a logically deleted work: the
reconciler sets the copy's `deleted_date` but leaves its status
`"loaned"`. -/
def exC3state : LibState :=
  { today := 5, works := [exWork9del], copies := [⟨1, 9, "loaned", 1, none⟩],
    members := [], loans := [], deleted_works := [exWork9del],
    next_work_id := 10, next_copy_id := 2, next_loan_id := 1 }

/-- State for the preserved direction of the copy-status invariant: one
available copy, deletable work. -/
def exC3wstate : LibState :=
  { today := 5, works := [exWork1], copies := [⟨1, 1, "available", 1, none⟩],
    members := [exMember], loans := [], deleted_works := [],
    next_work_id := 2, next_copy_id := 2, next_loan_id := 1 }

/-- State with an open loan on a copy that was logically deleted while on
loan (`status = "loaned"`, `deleted_date` set). -/
def exC7state : LibState :=
  { today := 5, works := [exWork1], copies := [⟨1, 1, "loaned", 1, some 3⟩],
    members := [exMember], loans := [⟨1, 1, 1, "202300001", 2, 16, none⟩],
    deleted_works := [], next_work_id := 2, next_copy_id := 2, next_loan_id := 2 }

/-- State whose only copy is `"available"` yet already carries a
`deleted_date`: `delete_work` skips it, leaving its status unchanged. -/
def exC8state : LibState :=
  { today := 5, works := [exWork1], copies := [⟨1, 1, "available", 1, some 2⟩],
    members := [], loans := [], deleted_works := [],
    next_work_id := 2, next_copy_id := 2, next_loan_id := 1 }

/-- A state for exercising `delete_work` on a clean catalog. -/
def exC8wstate : LibState :=
  { today := 5, works := [exWork1], copies := [⟨1, 1, "available", 1, none⟩],
    members := [], loans := [], deleted_works := [],
    next_work_id := 2, next_copy_id := 2, next_loan_id := 1 }

/-- The empty catalog. -/
def emptyState : LibState :=
  { today := 7, works := [], copies := [], members := [], loans := [],
    deleted_works := [], next_work_id := 1, next_copy_id := 1, next_loan_id := 1 }

/-- A state with an overdue open loan on a live loaned copy, for the
return-copy witness. -/
def exC6state : LibState :=
  { today := 20, works := [exWork1], copies := [⟨1, 1, "loaned", 1, none⟩],
    members := [exMember], loans := [⟨1, 1, 1, "202300001", 2, 16, none⟩],
    deleted_works := [], next_work_id := 2, next_copy_id := 2, next_loan_id := 2 }

/-- A state with two open loans on copy 1 sharing the same `loan_date`,
plus a later-dated open loan on copy 2. -/
def exC10state : LibState :=
  { today := 9, works := [exWork1],
    copies := [⟨1, 1, "loaned", 1, none⟩, ⟨2, 1, "loaned", 1, none⟩],
    members := [exMember],
    loans := [⟨1, 1, 1, "202300001", 3, 17, none⟩,
              ⟨2, 1, 1, "202300001", 3, 17, none⟩,
              ⟨3, 2, 1, "202300001", 4, 18, none⟩],
    deleted_works := [], next_work_id := 2, next_copy_id := 3, next_loan_id := 4 }

/-- Modelled from the claim wording of C9 only (not from the source): a
phone number matching `010-XXXX-XXXX` or `01X-XXX-XXXX`.  Used solely to
state that the source's validator accepts numbers outside these two
shapes. -/
def claimPhonePattern (phone : String) : Bool :=
  match phone.data with
  | ['0', '1', '0', '-', a, b, c, d, '-', e, f, g, h] =>
    [a, b, c, d, e, f, g, h].all isDigitCh
  | ['0', '1', x, '-', a, b, c, '-', e, f, g, h] =>
    isDigitCh x && [a, b, c, e, f, g, h].all isDigitCh
  | _ => false

/-! ## Theorems -/

/-- C1: after the Integrity Reconciler runs on the loaded state `exC1state`
(one copy referencing a missing work, one open loan on that copy), the
repaired state still contains a loan whose `copy_id` resolves to no copy:
`_remove_invalid_references` collects `valid_copy_ids` before dropping the
invalid copies (lines 325 and 328-330), so the loan survives the pass.
This refutes the no-dangling-references-post-reconcile guarantee. -/
theorem C1_dangling_loan_after_reconcile : ¬ noDangling (reconcile exC1state) := by
  simp only [noDangling]
  decide

/-- C2: the reconciliation pass is not a fixed point on the repaired state:
re-running the Reconciler on `reconcile exC2state` performs a further
mutation (it removes the loan left dangling by the first run). -/
theorem C2_second_run_mutates : reconcile (reconcile exC2state) ≠ reconcile exC2state := by
  decide

/-- C3 counterexample: in the reachable state obtained by reconciling
`exC3state` (a loaned copy of a logically deleted work) and applying no
engine operation, some copy has `deleted_date` set while its status is
`"loaned"`, so status `"deleted"` is not equivalent to `deleted_date`
being set. -/
theorem C3_counterexample : ¬ statusDeletedIff (applyOps [] (reconcile exC3state)) := by
  simp only [statusDeletedIff]
  decide

/-- C7 counterexample: in `exC7state` the open loan 1 sits on a copy that
was logically deleted while on loan (`status = "loaned"`,
`deleted_date = some 3`); `return_copy` succeeds, yet no copy of the
resulting state has status `"deleted"` — the returned copy keeps status
`"loaned"` rather than the claimed `"deleted"`. -/
theorem C7_counterexample :
    (return_copy exC7state 1).2 = some false ∧
    ∀ c ∈ (return_copy exC7state 1).1.copies, c.status ≠ "deleted" := by
  decide

/-- C8 counterexample: in `exC8state` the sole copy of work 1 has status
`"available"` but already carries a `deleted_date`; `delete_work 1`
succeeds, yet that copy's status stays `"available"` instead of becoming
`"deleted"` — the cascade at lines 539-543 skips copies whose
`deleted_date` is already set. -/
theorem C8_counterexample :
    (delete_work exC8state 1).2 = true ∧
    ∃ c ∈ (delete_work exC8state 1).1.copies,
      c.work_id = 1 ∧ c.status = "available" := by
  decide

/-- C9 counterexample: registering with phone `011-1234-5678` — which
matches neither `010-XXXX-XXXX` nor `01X-XXX-XXXX` — nevertheless appends a
member, because the source regex at line 441 also accepts `01[1-9]` with a
four-digit middle group. -/
theorem C9_counterexample :
    (register_member emptyState "202300001" "홍길동" "011-1234-5678" "pass1234").2 = true ∧
    claimPhonePattern "011-1234-5678" = false ∧
    (register_member emptyState "202300001" "홍길동" "011-1234-5678" "pass1234").1.members =
      emptyState.members ++ [⟨"202300001", "홍길동", "011-1234-5678", "pass1234", 7⟩] := by
  decide

/-! ### List helper lemmas -/

theorem forall_mem_updateFirst {α : Type} {p : α → Bool} {f : α → α} {P : α → Prop} :
    ∀ {l : List α}, (∀ x ∈ l, P x) → (∀ x, P x → P (f x)) →
      ∀ x ∈ updateFirst p f l, P x := by
  intro l
  induction l with
  | nil => intro _ _ x hx; simp [updateFirst] at hx
  | cons a t ih =>
    intro hl hf x hx
    rw [updateFirst] at hx
    split at hx
    · rcases List.mem_cons.1 hx with h | h
      · exact h ▸ hf a (hl a (List.mem_cons_self a t))
      · exact hl x (List.mem_cons_of_mem a h)
    · rcases List.mem_cons.1 hx with h | h
      · exact h ▸ hl a (List.mem_cons_self a t)
      · exact ih (fun y hy => hl y (List.mem_cons_of_mem a hy)) hf x h

theorem find?_updateFirst {α : Type} (p : α → Bool) (f : α → α)
    (hf : ∀ a, p (f a) = p a) :
    ∀ l : List α, (updateFirst p f l).find? p = (l.find? p).map f := by
  intro l
  induction l with
  | nil => rfl
  | cons a t ih =>
    rw [updateFirst]
    split
    next h =>
      rw [List.find?_cons_of_pos _ (by rw [hf]; exact h), List.find?_cons_of_pos _ h]
      rfl
    next h =>
      rw [List.find?_cons_of_neg _ (by simpa using h),
        List.find?_cons_of_neg _ (by simpa using h), ih]

theorem openCount_cons (l : Loan) (ls : List Loan) (cid : Nat) :
    openCount (l :: ls) cid =
      (if l.copy_id == cid && l.return_date == none then 1 else 0) + openCount ls cid := by
  simp only [openCount, List.filter_cons]
  split
  · simp [Nat.add_comm]
  · simp

theorem openCount_append (xs ys : List Loan) (cid : Nat) :
    openCount (xs ++ ys) cid = openCount xs cid + openCount ys cid := by
  simp [openCount, List.filter_append]

theorem openCount_eq_zero_of_any_eq_false {ls : List Loan} {cid : Nat}
    (h : ls.any (fun l => l.copy_id == cid && l.return_date == none) = false) :
    openCount ls cid = 0 := by
  induction ls with
  | nil => rfl
  | cons a t ih =>
    simp only [List.any_cons, Bool.or_eq_false_iff] at h
    rw [openCount_cons, h.1, ih h.2]
    simp

theorem openCount_updateFirst_le {p : Loan → Bool} {f : Loan → Loan}
    (hc : ∀ l, (f l).copy_id = l.copy_id)
    (hr : ∀ l, (f l).return_date = none → l.return_date = none)
    (ls : List Loan) (cid : Nat) :
    openCount (updateFirst p f ls) cid ≤ openCount ls cid := by
  induction ls with
  | nil => simp [updateFirst]
  | cons a t ih =>
    rw [updateFirst]
    split
    · rw [openCount_cons, openCount_cons]
      apply Nat.add_le_add _ (Nat.le_refl _)
      by_cases hfa : ((f a).copy_id == cid && (f a).return_date == none) = true
      · have ha : (a.copy_id == cid && a.return_date == none) = true := by
          simp only [Bool.and_eq_true, beq_iff_eq] at hfa ⊢
          exact ⟨hc a ▸ hfa.1, hr a hfa.2⟩
        rw [hfa, ha]
      · rw [Bool.not_eq_true] at hfa
        rw [hfa]
        simp
    · rw [openCount_cons, openCount_cons]
      exact Nat.add_le_add (Nat.le_refl _) ih

/-! ### Duplicate-open-loan repair lemmas -/

theorem groupGo_length (cid : Nat) :
    ∀ (i : Nat) (ls : List Loan), (groupGo cid i ls).length = openCount ls cid := by
  intro i ls
  induction ls generalizing i with
  | nil => rfl
  | cons a t ih =>
    rw [groupGo, openCount_cons]
    split
    · simp [ih, Nat.add_comm]
    · simp [ih]

theorem insertDesc_ne_nil (x : Nat × Loan) (l : List (Nat × Loan)) :
    insertDesc x l ≠ [] := by
  cases l with
  | nil => simp [insertDesc]
  | cons y ys => rw [insertDesc]; split <;> simp

theorem sortDesc_eq_nil_iff (l : List (Nat × Loan)) : sortDesc l = [] ↔ l = [] := by
  cases l with
  | nil => simp [sortDesc]
  | cons x xs =>
    rw [sortDesc]
    simpa using insertDesc_ne_nil x (sortDesc xs)

theorem keptIdx_isSome {loans : List Loan} {cid : Nat}
    (h : openGroup loans cid ≠ []) : ∃ k, keptIdx loans cid = some k := by
  unfold keptIdx
  cases hh : (sortDesc (openGroup loans cid)).head? with
  | none =>
    rw [List.head?_eq_none_iff, sortDesc_eq_nil_iff] at hh
    exact absurd hh h
  | some p => exact ⟨p.1, rfl⟩

theorem closedHeadCount (a : Loan) (cid : Nat) :
    ((closeLoan a).copy_id == cid && (closeLoan a).return_date == none) = false := by
  simp [closeLoan]

theorem openCount_fixDupGo_le (orig : List Loan) (cid : Nat) :
    ∀ (i : Nat) (ls : List Loan),
      openCount (fixDupGo orig i ls) cid ≤ openCount ls cid := by
  intro i ls
  induction ls generalizing i with
  | nil => simp [fixDupGo, openCount]
  | cons a t ih =>
    rw [fixDupGo, openCount_cons, openCount_cons]
    refine Nat.add_le_add ?_ (ih (i + 1))
    split
    · rw [closedHeadCount]
      simp
    · exact Nat.le_refl _

theorem ifIndexBound (i k : Nat) :
    (if i + 1 ≤ k then 1 else 0 : Nat) ≤ if i ≤ k then 1 else 0 := by
  by_cases h1 : i + 1 ≤ k
  · rw [if_pos h1, if_pos (by omega)]
  · rw [if_neg h1]
    simp

theorem openCount_fixDupGo_kept (orig : List Loan) (cid k : Nat)
    (hg : 1 < (openGroup orig cid).length) (hk : keptIdx orig cid = some k) :
    ∀ (i : Nat) (ls : List Loan),
      openCount (fixDupGo orig i ls) cid ≤ if i ≤ k then 1 else 0 := by
  intro i ls
  induction ls generalizing i with
  | nil => simp [fixDupGo, openCount]
  | cons a t ih =>
    rw [fixDupGo]
    by_cases ha : (a.copy_id == cid && a.return_date == none) = true
    · have hacid : a.copy_id = cid := by
        simp only [Bool.and_eq_true, beq_iff_eq] at ha
        exact ha.1
      by_cases hik : k = i
      · have hclose : closeCond orig i a = false := by
          simp only [closeCond, hacid]
          rw [hk, hik]
          simp only [Bool.and_eq_true, beq_iff_eq] at ha
          simp [ha.2]
        have htail := ih (i + 1)
        rw [if_neg (show ¬ (i + 1 ≤ k) by omega)] at htail
        rw [if_neg (show ¬ closeCond orig i a = true by simp [hclose]),
          openCount_cons, ha, Nat.le_zero.mp htail,
          if_pos (show i ≤ k by omega)]
        simp
      · have hclose : closeCond orig i a = true := by
          simp only [Bool.and_eq_true, beq_iff_eq] at ha
          simp only [closeCond, hacid]
          rw [hk]
          simp [ha.2, hg, hik]
        rw [if_pos hclose, openCount_cons, closedHeadCount]
        simp only [Bool.false_eq_true, if_false, Nat.zero_add]
        exact Nat.le_trans (ih (i + 1)) (ifIndexBound i k)
    · rw [Bool.not_eq_true] at ha
      have hbound : openCount ((if closeCond orig i a then closeLoan a else a) :: fixDupGo orig (i + 1) t) cid =
          openCount (fixDupGo orig (i + 1) t) cid := by
        split
        · rw [openCount_cons, closedHeadCount]
          simp
        · rw [openCount_cons, ha]
          simp
      rw [hbound]
      exact Nat.le_trans (ih (i + 1)) (ifIndexBound i k)

theorem fix_duplicate_loans_atMostOne (s : LibState) :
    atMostOneOpen (fix_duplicate_loans s) := by
  intro cid
  show openCount (fixDupGo s.loans 0 s.loans) cid ≤ 1
  by_cases hg : 1 < (openGroup s.loans cid).length
  · have hne : openGroup s.loans cid ≠ [] := by
      intro hnil
      rw [hnil] at hg
      simp at hg
    obtain ⟨k, hk⟩ := keptIdx_isSome hne
    have hb := openCount_fixDupGo_kept s.loans cid k hg hk 0 s.loans
    rw [if_pos (Nat.zero_le k)] at hb
    exact hb
  · have hlen : (openGroup s.loans cid).length = openCount s.loans cid :=
      groupGo_length cid 0 s.loans
    have h1 : openCount s.loans cid ≤ 1 := by omega
    exact Nat.le_trans (openCount_fixDupGo_le s.loans cid 0 s.loans) h1

/-! ### Shape lemmas for the engine operations -/

theorem register_member_loans (s : LibState) (a b c d : String) :
    (register_member s a b c d).1.loans = s.loans := by
  simp only [register_member]
  split_ifs <;> rfl

theorem register_member_copies (s : LibState) (a b c d : String) :
    (register_member s a b c d).1.copies = s.copies := by
  simp only [register_member]
  split_ifs <;> rfl

theorem remove_member_loans (s : LibState) (a : String) :
    (remove_member s a).1.loans = s.loans := by
  simp only [remove_member]
  split_ifs <;> rfl

theorem remove_member_copies (s : LibState) (a : String) :
    (remove_member s a).1.copies = s.copies := by
  simp only [remove_member]
  split_ifs <;> rfl

theorem set_today_loans (s : LibState) (d : Nat) : (set_today s d).loans = s.loans := by
  simp only [set_today]
  split_ifs <;> rfl

theorem set_today_copies (s : LibState) (d : Nat) : (set_today s d).copies = s.copies := by
  simp only [set_today]
  split_ifs <;> rfl

theorem add_work_loans (s : LibState) (t a : String) (k : Int) :
    (add_work s t a k).1.loans = s.loans := by
  simp only [add_work]
  repeat' split
  all_goals rfl

theorem add_work_copies (s : LibState) (t a : String) (k : Int) :
    (add_work s t a k).1.copies = s.copies ∨
    ∃ td w f n, (add_work s t a k).1.copies = s.copies ++ mkCopies td w f n := by
  simp only [add_work]
  repeat' split
  all_goals try (left; rfl)
  all_goals right
  all_goals exact ⟨_, _, _, _, rfl⟩

theorem delete_work_loans (s : LibState) (wid : Nat) :
    (delete_work s wid).1.loans = s.loans := by
  simp only [delete_work]
  repeat' split
  all_goals rfl

theorem delete_work_copies (s : LibState) (wid : Nat) :
    (delete_work s wid).1.copies = s.copies ∨
    (delete_work s wid).1.copies = s.copies.map (cascadeCopy s.today wid) := by
  simp only [delete_work]
  repeat' split
  all_goals first | (left; rfl) | (right; rfl)

theorem loanOp_loans (s : LibState) (sid : String) (wid : Nat) :
    (loanOp s sid wid).1.loans = s.loans ∨
    ∃ cid, s.loans.any (fun l => l.copy_id == cid && l.return_date == none) = false ∧
      (loanOp s sid wid).1.loans =
        s.loans ++ [⟨s.next_loan_id, cid, wid, sid, s.today, s.today + DUE_DAYS, none⟩] := by
  simp only [loanOp]
  repeat' split
  all_goals try (left; rfl)
  all_goals right
  all_goals refine ⟨_, ?_, rfl⟩
  all_goals simp_all [Bool.not_eq_true]

theorem loanOp_copies (s : LibState) (sid : String) (wid : Nat) :
    (loanOp s sid wid).1.copies = s.copies ∨
    ∃ p, (loanOp s sid wid).1.copies = updateFirst p markLoaned s.copies := by
  simp only [loanOp]
  repeat' split
  all_goals try (left; rfl)
  all_goals exact Or.inr ⟨_, rfl⟩

theorem return_copy_loans (s : LibState) (lid : Nat) :
    (return_copy s lid).1.loans = s.loans ∨
    (return_copy s lid).1.loans =
      updateFirst (fun l => l.loan_id == lid) (setReturn s.today) s.loans := by
  simp only [return_copy]
  repeat' split
  all_goals first | (left; rfl) | (right; rfl)

theorem return_copy_copies (s : LibState) (lid : Nat) :
    (return_copy s lid).1.copies = s.copies ∨
    ∃ p, (return_copy s lid).1.copies = updateFirst p restoreCopy s.copies := by
  simp only [return_copy]
  repeat' split
  all_goals try (left; rfl)
  all_goals exact Or.inr ⟨_, rfl⟩

/-! ### Date-repair lemmas -/

theorem dateFixDue_due (l : Loan) : (dateFixDue l).due_date = l.loan_date + DUE_DAYS := by
  unfold dateFixDue
  split
  · rfl
  next h =>
    push_neg at h
    exact h

theorem dateFixDue_loan_date (l : Loan) : (dateFixDue l).loan_date = l.loan_date := by
  unfold dateFixDue
  split <;> rfl

theorem dateFixDue_copy_id (l : Loan) : (dateFixDue l).copy_id = l.copy_id := by
  unfold dateFixDue
  split <;> rfl

theorem dateFixDue_return (l : Loan) : (dateFixDue l).return_date = l.return_date := by
  unfold dateFixDue
  split <;> rfl

theorem dateFixRet_due (l : Loan) : (dateFixRet l).due_date = l.due_date := by
  unfold dateFixRet
  repeat' split
  all_goals rfl

theorem dateFixRet_loan_date (l : Loan) : (dateFixRet l).loan_date = l.loan_date := by
  unfold dateFixRet
  repeat' split
  all_goals rfl

theorem dateFixRet_copy_id (l : Loan) : (dateFixRet l).copy_id = l.copy_id := by
  unfold dateFixRet
  repeat' split
  all_goals rfl

theorem dateFixRet_open_iff (l : Loan) :
    (dateFixRet l).return_date = none ↔ l.return_date = none := by
  unfold dateFixRet
  repeat' split
  all_goals simp_all

theorem dateFix_due (l : Loan) : (dateFix l).due_date = (dateFix l).loan_date + DUE_DAYS := by
  unfold dateFix
  rw [dateFixRet_due, dateFixRet_loan_date, dateFixDue_due, dateFixDue_loan_date]

theorem dateFix_copy_id (l : Loan) : (dateFix l).copy_id = l.copy_id := by
  unfold dateFix
  rw [dateFixRet_copy_id, dateFixDue_copy_id]

theorem dateFix_open_iff (l : Loan) :
    (dateFix l).return_date = none ↔ l.return_date = none := by
  unfold dateFix
  rw [dateFixRet_open_iff, dateFixDue_return]

theorem openCount_map_dateFix (ls : List Loan) (cid : Nat) :
    openCount (ls.map dateFix) cid = openCount ls cid := by
  induction ls with
  | nil => rfl
  | cons a t ih =>
    rw [List.map_cons, openCount_cons, openCount_cons, ih]
    congr 1
    have h1 : ((dateFix a).copy_id == cid) = (a.copy_id == cid) := by
      rw [dateFix_copy_id]
    have h2 : ((dateFix a).return_date == none) = (a.return_date == none) := by
      rw [Bool.eq_iff_iff]
      simp only [beq_iff_eq]
      exact dateFix_open_iff a
    rw [h1, h2]

/-! ### Invariant establishment and preservation -/

theorem reconcile_atMostOneOpen (s : LibState) : atMostOneOpen (reconcile s) := by
  intro cid
  show openCount
    ((fix_duplicate_loans (remove_invalid_references (fix_deleted_work_references s))).loans.map
      dateFix) cid ≤ 1
  rw [openCount_map_dateFix]
  exact fix_duplicate_loans_atMostOne _ cid

theorem reconcile_dueDateLaw (s : LibState) : dueDateLaw (reconcile s) := by
  intro l hl
  have hm : l ∈
      ((fix_duplicate_loans (remove_invalid_references (fix_deleted_work_references s))).loans.map
        dateFix) := hl
  obtain ⟨l0, _, rfl⟩ := List.mem_map.1 hm
  exact dateFix_due l0

theorem applyOps_preserve {P : LibState → Prop}
    (hstep : ∀ op t, P t → P (applyOp op t)) :
    ∀ (ops : List Op) (t : LibState), P t → P (applyOps ops t) := by
  intro ops
  induction ops with
  | nil => intro t ht; exact ht
  | cons op rest ih => intro t ht; exact ih (applyOp op t) (hstep op t ht)

theorem openCount_singleton_le (x : Loan) (cid : Nat) : openCount [x] cid ≤ 1 := by
  rw [openCount_cons]
  split <;> simp [openCount]

theorem applyOp_atMostOneOpen (op : Op) (s : LibState) (h : atMostOneOpen s) :
    atMostOneOpen (applyOp op s) := by
  cases op with
  | registerMember a b c d =>
    intro cid
    show openCount (register_member s a b c d).1.loans cid ≤ 1
    rw [register_member_loans]
    exact h cid
  | removeMember a =>
    intro cid
    show openCount (remove_member s a).1.loans cid ≤ 1
    rw [remove_member_loans]
    exact h cid
  | addWork t a k =>
    intro cid
    show openCount (add_work s t a k).1.loans cid ≤ 1
    rw [add_work_loans]
    exact h cid
  | deleteWork w =>
    intro cid
    show openCount (delete_work s w).1.loans cid ≤ 1
    rw [delete_work_loans]
    exact h cid
  | setToday d =>
    intro cid
    show openCount (set_today s d).loans cid ≤ 1
    rw [set_today_loans]
    exact h cid
  | doLoan a w =>
    intro cid
    show openCount (loanOp s a w).1.loans cid ≤ 1
    rcases loanOp_loans s a w with hl | ⟨cid2, hany, hl⟩
    · rw [hl]; exact h cid
    · rw [hl, openCount_append]
      by_cases hc : cid2 = cid
      · subst hc
        rw [openCount_eq_zero_of_any_eq_false hany]
        have := openCount_singleton_le
          (⟨s.next_loan_id, cid2, w, a, s.today, s.today + DUE_DAYS, none⟩ : Loan) cid2
        omega
      · have hz : openCount [(⟨s.next_loan_id, cid2, w, a, s.today, s.today + DUE_DAYS,
            none⟩ : Loan)] cid = 0 := by
          rw [openCount_cons]
          have : ((⟨s.next_loan_id, cid2, w, a, s.today, s.today + DUE_DAYS,
              none⟩ : Loan).copy_id == cid) = false := by
            simp [hc]
          rw [this]
          simp [openCount]
        rw [hz]
        have := h cid
        omega
  | returnCopy lid =>
    intro cid
    show openCount (return_copy s lid).1.loans cid ≤ 1
    rcases return_copy_loans s lid with hl | hl
    · rw [hl]; exact h cid
    · rw [hl]
      refine Nat.le_trans (openCount_updateFirst_le ?_ ?_ _ _) (h cid)
      · intro x; rfl
      · intro x hx; simp [setReturn] at hx

theorem applyOp_dueDateLaw (op : Op) (s : LibState) (h : dueDateLaw s) :
    dueDateLaw (applyOp op s) := by
  cases op with
  | registerMember a b c d =>
    intro l hl
    rw [show (applyOp (Op.registerMember a b c d) s).loans = s.loans from
      register_member_loans s a b c d] at hl
    exact h l hl
  | removeMember a =>
    intro l hl
    rw [show (applyOp (Op.removeMember a) s).loans = s.loans from
      remove_member_loans s a] at hl
    exact h l hl
  | addWork t a k =>
    intro l hl
    rw [show (applyOp (Op.addWork t a k) s).loans = s.loans from
      add_work_loans s t a k] at hl
    exact h l hl
  | deleteWork w =>
    intro l hl
    rw [show (applyOp (Op.deleteWork w) s).loans = s.loans from
      delete_work_loans s w] at hl
    exact h l hl
  | setToday d =>
    intro l hl
    rw [show (applyOp (Op.setToday d) s).loans = s.loans from set_today_loans s d] at hl
    exact h l hl
  | doLoan a w =>
    intro l hl
    simp only [applyOp] at hl
    rcases loanOp_loans s a w with hsh | ⟨cid2, _, hsh⟩
    · rw [hsh] at hl; exact h l hl
    · rw [hsh] at hl
      rcases List.mem_append.1 hl with h1 | h1
      · exact h l h1
      · rw [List.mem_singleton.1 h1]
  | returnCopy lid =>
    intro l hl
    simp only [applyOp] at hl
    rcases return_copy_loans s lid with hsh | hsh
    · rw [hsh] at hl; exact h l hl
    · rw [hsh] at hl
      exact @forall_mem_updateFirst _ _ (setReturn s.today) _ _ h (fun x hx => hx) l hl

/-! ### Deleted-status/date preservation -/

theorem markDeletedCopy_pres (today : Nat) (ids : List Nat) (c : Copy)
    (h : c.status = "deleted" → c.deleted_date ≠ none) :
    (markDeletedCopy today ids c).status = "deleted" →
      (markDeletedCopy today ids c).deleted_date ≠ none := by
  unfold markDeletedCopy
  split
  · intro _
    simp
  · exact h

theorem cascadeCopy_pres (today wid : Nat) (c : Copy)
    (h : c.status = "deleted" → c.deleted_date ≠ none) :
    (cascadeCopy today wid c).status = "deleted" →
      (cascadeCopy today wid c).deleted_date ≠ none := by
  unfold cascadeCopy
  split
  · intro _
    simp
  · exact h

theorem markLoaned_pres (c : Copy) :
    (markLoaned c).status = "deleted" → (markLoaned c).deleted_date ≠ none := by
  intro hst
  exact absurd hst (by simp [markLoaned])

theorem restoreCopy_pres (c : Copy)
    (h : c.status = "deleted" → c.deleted_date ≠ none) :
    (restoreCopy c).status = "deleted" → (restoreCopy c).deleted_date ≠ none := by
  unfold restoreCopy
  split
  next hl =>
    intro hst
    exfalso
    revert hst
    split
    · simp
    next hd =>
      rw [beq_iff_eq] at hl
      simp [hl]
  next hl => exact h

theorem mkCopies_status (td w : Nat) :
    ∀ (n f : Nat) (c : Copy), c ∈ mkCopies td w f n → c.status = "available" := by
  intro n
  induction n with
  | zero => intro f c hc; simp [mkCopies] at hc
  | succ m ih =>
    intro f c hc
    rw [mkCopies] at hc
    rcases List.mem_cons.1 hc with h1 | h1
    · rw [h1]
    · exact ih (f + 1) c h1

theorem reconcile_deletedImpliesDate (s : LibState) (h : deletedImpliesDate s) :
    deletedImpliesDate (reconcile s) := by
  intro c hc
  have hc2 : c ∈ (s.copies.map
      (markDeletedCopy s.today (s.deleted_works.map (fun w => w.work_id)))).filter
      (fun c => (s.works.map (fun w => w.work_id)).contains c.work_id) := hc
  have hc3 := (List.mem_filter.1 hc2).1
  obtain ⟨c0, hc0, rfl⟩ := List.mem_map.1 hc3
  exact markDeletedCopy_pres s.today _ c0 (h c0 hc0)

theorem applyOp_deletedImpliesDate (op : Op) (s : LibState) (h : deletedImpliesDate s) :
    deletedImpliesDate (applyOp op s) := by
  cases op with
  | registerMember a b c d =>
    intro cp hcp
    rw [show (applyOp (Op.registerMember a b c d) s).copies = s.copies from
      register_member_copies s a b c d] at hcp
    exact h cp hcp
  | removeMember a =>
    intro c hc
    rw [show (applyOp (Op.removeMember a) s).copies = s.copies from
      remove_member_copies s a] at hc
    exact h c hc
  | setToday d =>
    intro c hc
    rw [show (applyOp (Op.setToday d) s).copies = s.copies from set_today_copies s d] at hc
    exact h c hc
  | addWork t a k =>
    intro c hc
    simp only [applyOp] at hc
    rcases add_work_copies s t a k with hs | ⟨td, w, f, n, hs⟩
    · rw [hs] at hc; exact h c hc
    · rw [hs] at hc
      rcases List.mem_append.1 hc with h1 | h1
      · exact h c h1
      · intro hst
        exact absurd hst (by rw [mkCopies_status td w n f c h1]; decide)
  | deleteWork w =>
    intro c hc
    simp only [applyOp] at hc
    rcases delete_work_copies s w with hs | hs
    · rw [hs] at hc; exact h c hc
    · rw [hs] at hc
      obtain ⟨c0, hc0, rfl⟩ := List.mem_map.1 hc
      exact cascadeCopy_pres s.today w c0 (h c0 hc0)
  | doLoan a w =>
    intro c hc
    simp only [applyOp] at hc
    rcases loanOp_copies s a w with hs | ⟨p, hs⟩
    · rw [hs] at hc; exact h c hc
    · rw [hs] at hc
      exact @forall_mem_updateFirst _ p markLoaned _ _ h (fun x _ => markLoaned_pres x) c hc
  | returnCopy lid =>
    intro c hc
    simp only [applyOp] at hc
    rcases return_copy_copies s lid with hs | ⟨p, hs⟩
    · rw [hs] at hc; exact h c hc
    · rw [hs] at hc
      exact @forall_mem_updateFirst _ p restoreCopy _ _ h
        (fun x hx => restoreCopy_pres x hx) c hc

/-- C4: at most one open loan per copy in every reachable state: the
Reconciler's duplicate-open-loan repair establishes the bound on any load
state, and every engine operation preserves it (a loan is created only
after the open-loan recheck at lines 726-730; a return only closes). -/
theorem C4_at_most_one_open_loan (s : LibState) (ops : List Op) :
    atMostOneOpen (applyOps ops (reconcile s)) :=
  applyOps_preserve applyOp_atMostOneOpen ops (reconcile s) (reconcile_atMostOneOpen s)

/-- C5: every loan in every reachable state is due exactly 14 days after
its loan date: `_fix_date_logic` rewrites every loaded loan, and `loan`
creates loans with `due_date = today + 14` (line 747); no other operation
touches these fields. -/
theorem C5_due_date_law (s : LibState) (ops : List Op) :
    dueDateLaw (applyOps ops (reconcile s)) :=
  applyOps_preserve applyOp_dueDateLaw ops (reconcile s) (reconcile_dueDateLaw s)

/-- C3 (amended): the biconditional fails (see the counterexample), but the
forward direction is preserved: if every copy of the loaded state with
status `"deleted"` carries a `deleted_date`, the same holds in every
reachable state.  The converse direction is false because the Reconciler
and `delete_work` set `deleted_date` on a loaned copy while leaving its
status `"loaned"`, and the Reconciler does not repair loaded copies with
status `"deleted"` and no date. -/
theorem C3_deleted_status_dated (s : LibState) (ops : List Op)
    (h : deletedImpliesDate s) :
    deletedImpliesDate (applyOps ops (reconcile s)) :=
  applyOps_preserve applyOp_deletedImpliesDate ops (reconcile s)
    (reconcile_deletedImpliesDate s h)

/-- Witness for C3's amended theorem at a concrete state and operation
sequence. -/
theorem C3_deleted_status_dated_witness :
    deletedImpliesDate exC3wstate ∧
    deletedImpliesDate (applyOps [Op.deleteWork 1, Op.setToday 8] (reconcile exC3wstate)) :=
  ⟨by simp only [deletedImpliesDate]; decide,
   C3_deleted_status_dated exC3wstate [Op.deleteWork 1, Op.setToday 8]
     (by simp only [deletedImpliesDate]; decide)⟩

/-! ### `return_copy` lemmas -/

theorem restoreCopy_copy_id (c : Copy) : (restoreCopy c).copy_id = c.copy_id := by
  unfold restoreCopy
  repeat' split
  all_goals rfl

theorem restoreCopy_of_loaned_live (cp : Copy) (hst : cp.status = "loaned")
    (hdel : cp.deleted_date = none) : restoreCopy cp = { cp with status := "available" } := by
  unfold restoreCopy
  rw [if_pos (by simp [hst]), hdel]
  rfl

theorem restoreCopy_of_deleted (cp : Copy) (hdel : cp.deleted_date ≠ none) :
    restoreCopy cp = cp := by
  unfold restoreCopy
  split
  · have hd : (cp.deleted_date == none) = false := by
      simpa using hdel
    rw [hd]
    cases cp
    rfl
  · rfl

/-- C6: `returnCopy` fails with no state change when the loan is missing,
already closed, or any of its foreign keys (work, member, copy) is
dangling; on success it sets the loan's `return_date` to today, restores
the copy's status to `"available"` only when the copy's `deleted_date` is
unset (a logically deleted copy is left unchanged), and reports overdue
exactly when the new `return_date` (today) exceeds `due_date`. -/
theorem C6_return_copy_spec (s : LibState) (lid : Nat) :
    (s.loans.find? (fun l => l.loan_id == lid) = none → return_copy s lid = (s, none)) ∧
    ∀ loan, s.loans.find? (fun l => l.loan_id == lid) = some loan →
      (loan.return_date ≠ none → return_copy s lid = (s, none)) ∧
      ((¬ ∃ w ∈ s.works, w.work_id = loan.work_id) → return_copy s lid = (s, none)) ∧
      ((¬ ∃ m ∈ s.members, m.student_id = loan.student_id) →
        return_copy s lid = (s, none)) ∧
      ((¬ ∃ c ∈ s.copies, c.copy_id = loan.copy_id) → return_copy s lid = (s, none)) ∧
      (loan.return_date = none →
       (∃ w ∈ s.works, w.work_id = loan.work_id) →
       (∃ m ∈ s.members, m.student_id = loan.student_id) →
       ∀ cp, s.copies.find? (fun c => c.copy_id == loan.copy_id) = some cp →
        (return_copy s lid).2 = some (decide (loan.due_date < s.today)) ∧
        (return_copy s lid).1.loans.find? (fun l => l.loan_id == lid) =
          some { loan with return_date := some s.today } ∧
        (cp.status = "loaned" → cp.deleted_date = none →
          (return_copy s lid).1.copies.find? (fun c => c.copy_id == loan.copy_id) =
            some { cp with status := "available" }) ∧
        (cp.deleted_date ≠ none →
          (return_copy s lid).1.copies.find? (fun c => c.copy_id == loan.copy_id) =
            some cp)) := by
  constructor
  · intro hf
    simp only [return_copy, hf]
  · intro loan hf
    refine ⟨?_, ?_, ?_, ?_, ?_⟩
    · intro hcl
      simp only [return_copy, hf, if_pos hcl]
    · intro hw
      have hwa : s.works.any (fun w => w.work_id == loan.work_id) = false := by
        rw [List.any_eq_false]
        intro w hwmem hbeq
        exact hw ⟨w, hwmem, by simpa using hbeq⟩
      simp only [return_copy, hf]
      split
      · rfl
      · rw [if_pos (by rw [hwa]; rfl)]
    · intro hm
      have hma : s.members.any (fun m => m.student_id == loan.student_id) = false := by
        rw [List.any_eq_false]
        intro m hmmem hbeq
        exact hm ⟨m, hmmem, by simpa using hbeq⟩
      simp only [return_copy, hf]
      split
      · rfl
      · split
        · rfl
        · rw [if_pos (by rw [hma]; rfl)]
    · intro hcx
      have hca : s.copies.any (fun c => c.copy_id == loan.copy_id) = false := by
        rw [List.any_eq_false]
        intro cx hcmem hbeq
        exact hcx ⟨cx, hcmem, by simpa using hbeq⟩
      simp only [return_copy, hf]
      split
      · rfl
      · split
        · rfl
        · split
          · rfl
          · rw [if_pos (by rw [hca]; rfl)]
    · intro hopen hexw hexm cp hcp
      obtain ⟨w, hwmem, hweq⟩ := hexw
      obtain ⟨m, hmmem, hmeq⟩ := hexm
      have hwa : s.works.any (fun x => x.work_id == loan.work_id) = true :=
        List.any_eq_true.2 ⟨w, hwmem, by simpa using hweq⟩
      have hma : s.members.any (fun x => x.student_id == loan.student_id) = true :=
        List.any_eq_true.2 ⟨m, hmmem, by simpa using hmeq⟩
      have hpc : (fun x : Copy => x.copy_id == loan.copy_id) cp = true :=
        @List.find?_some _ (fun x : Copy => x.copy_id == loan.copy_id) cp _ hcp
      have hca : s.copies.any (fun x => x.copy_id == loan.copy_id) = true :=
        List.any_eq_true.2 ⟨cp, List.mem_of_find?_eq_some hcp, hpc⟩
      have heq : return_copy s lid =
          ({ s with
              copies := updateFirst (fun c => c.copy_id == loan.copy_id) restoreCopy s.copies,
              loans := updateFirst (fun l => l.loan_id == lid) (setReturn s.today) s.loans },
            some (decide (loan.due_date < s.today))) := by
        simp only [return_copy, hf, hwa, hma, hca]
        rw [if_neg (by simp [hopen])]
        rfl
      refine ⟨by rw [heq], ?_, ?_, ?_⟩
      · rw [heq]
        show (updateFirst (fun l => l.loan_id == lid) (setReturn s.today) s.loans).find?
          (fun l => l.loan_id == lid) = _
        rw [find?_updateFirst (fun l : Loan => l.loan_id == lid) (setReturn s.today)
          (fun a => rfl), hf]
        rfl
      · intro hst hdel
        rw [heq]
        show (updateFirst (fun c => c.copy_id == loan.copy_id) restoreCopy s.copies).find?
          (fun c => c.copy_id == loan.copy_id) = _
        rw [find?_updateFirst (fun c : Copy => c.copy_id == loan.copy_id) restoreCopy
          (fun a => by simp only [restoreCopy_copy_id]), hcp]
        show some (restoreCopy cp) = _
        rw [restoreCopy_of_loaned_live cp hst hdel]
      · intro hdel
        rw [heq]
        show (updateFirst (fun c => c.copy_id == loan.copy_id) restoreCopy s.copies).find?
          (fun c => c.copy_id == loan.copy_id) = _
        rw [find?_updateFirst (fun c : Copy => c.copy_id == loan.copy_id) restoreCopy
          (fun a => by simp only [restoreCopy_copy_id]), hcp]
        show some (restoreCopy cp) = _
        rw [restoreCopy_of_deleted cp hdel]

/-- Witness for C6 at a concrete state: returning overdue loan 1 of
`exC6state` succeeds, reports overdue, closes the loan with today's date
and restores the live loaned copy to `"available"`. -/
theorem C6_return_copy_spec_witness :
    (return_copy exC6state 1).2 = some (decide ((16 : Nat) < 20)) ∧
    (return_copy exC6state 1).1.loans.find? (fun l => l.loan_id == 1) =
      some ⟨1, 1, 1, "202300001", 2, 16, some 20⟩ ∧
    (return_copy exC6state 1).1.copies.find? (fun c => c.copy_id == 1) =
      some ⟨1, 1, "available", 1, none⟩ := by
  have h := ((C6_return_copy_spec exC6state 1).2 ⟨1, 1, 1, "202300001", 2, 16, none⟩
    (by decide)).2.2.2.2 rfl (by decide) (by decide) ⟨1, 1, "loaned", 1, none⟩ (by decide)
  exact ⟨h.1, h.2.1, h.2.2.1 rfl rfl⟩

/-- The success branch of `return_copy` as one state equation. -/
theorem return_copy_success_eq (s : LibState) (lid : Nat) (loan : Loan)
    (hf : s.loans.find? (fun l => l.loan_id == lid) = some loan)
    (hopen : loan.return_date = none)
    (hwa : s.works.any (fun x => x.work_id == loan.work_id) = true)
    (hma : s.members.any (fun x => x.student_id == loan.student_id) = true)
    (hca : s.copies.any (fun x => x.copy_id == loan.copy_id) = true) :
    return_copy s lid =
      ({ s with
          copies := updateFirst (fun c => c.copy_id == loan.copy_id) restoreCopy s.copies,
          loans := updateFirst (fun l => l.loan_id == lid) (setReturn s.today) s.loans },
        some (decide (loan.due_date < s.today))) := by
  simp only [return_copy, hf, hwa, hma, hca]
  rw [if_neg (by simp [hopen])]
  rfl

/-- C7 (amended): a copy logically deleted while on loan (status
`"loaned"`, `deleted_date` set) is left entirely unchanged by a successful
`returnCopy`: it keeps status `"loaned"` — in particular it does not
revert to `"available"` — and keeps its `deleted_date` set; it does not
get status `"deleted"` as the claim stated (lines 783-785 only replace a
`"loaned"` status with `"available"`, and only when `deleted_date` is
unset). -/
theorem C7_deleted_copy_unchanged (s : LibState) (lid : Nat) (loan : Loan) (cp : Copy)
    (hf : s.loans.find? (fun l => l.loan_id == lid) = some loan)
    (hopen : loan.return_date = none)
    (hw : ∃ w ∈ s.works, w.work_id = loan.work_id)
    (hm : ∃ m ∈ s.members, m.student_id = loan.student_id)
    (hcp : s.copies.find? (fun c => c.copy_id == loan.copy_id) = some cp)
    (_hst : cp.status = "loaned") (hdel : cp.deleted_date ≠ none) :
    (return_copy s lid).2 = some (decide (loan.due_date < s.today)) ∧
    (return_copy s lid).1.copies.find? (fun c => c.copy_id == loan.copy_id) = some cp := by
  obtain ⟨w, hwm, hwe⟩ := hw
  obtain ⟨m, hmm, hme⟩ := hm
  have hwa : s.works.any (fun x => x.work_id == loan.work_id) = true :=
    List.any_eq_true.2 ⟨w, hwm, by simpa using hwe⟩
  have hma : s.members.any (fun x => x.student_id == loan.student_id) = true :=
    List.any_eq_true.2 ⟨m, hmm, by simpa using hme⟩
  have hpc : (fun x : Copy => x.copy_id == loan.copy_id) cp = true :=
    @List.find?_some _ (fun x : Copy => x.copy_id == loan.copy_id) cp _ hcp
  have hca : s.copies.any (fun x => x.copy_id == loan.copy_id) = true :=
    List.any_eq_true.2 ⟨cp, List.mem_of_find?_eq_some hcp, hpc⟩
  have heq := return_copy_success_eq s lid loan hf hopen hwa hma hca
  constructor
  · rw [heq]
  · rw [heq]
    show (updateFirst (fun c => c.copy_id == loan.copy_id) restoreCopy s.copies).find?
      (fun c => c.copy_id == loan.copy_id) = _
    rw [find?_updateFirst (fun c : Copy => c.copy_id == loan.copy_id) restoreCopy
      (fun a => by simp only [restoreCopy_copy_id]), hcp]
    show some (restoreCopy cp) = _
    rw [restoreCopy_of_deleted cp hdel]

/-- Witness for C7's amended theorem: returning loan 1 of `exC7state`
(copy 1 deleted while on loan) succeeds and leaves copy 1 unchanged, still
`"loaned"` with its `deleted_date`. -/
theorem C7_deleted_copy_unchanged_witness :
    (return_copy exC7state 1).2 = some (decide ((16 : Nat) < 5)) ∧
    (return_copy exC7state 1).1.copies.find? (fun c => c.copy_id == 1) =
      some ⟨1, 1, "loaned", 1, some 3⟩ :=
  C7_deleted_copy_unchanged exC7state 1 ⟨1, 1, 1, "202300001", 2, 16, none⟩
    ⟨1, 1, "loaned", 1, some 3⟩ (by decide) rfl (by decide) (by decide) (by decide)
    rfl (by decide)

/-! ### `delete_work` lemmas -/

theorem find?_none_of_contains (ws : List Work) (wid : Nat) (dIds : List Nat)
    (h : dIds.contains wid = true) :
    ws.find? (fun w => w.work_id == wid && !(dIds.contains w.work_id)) = none := by
  have hm : wid ∈ dIds := by simpa using h
  rw [List.find?_eq_none]
  intro a _ hpa
  rw [Bool.and_eq_true] at hpa
  obtain ⟨h1, h2⟩ := hpa
  rw [beq_iff_eq] at h1
  rw [h1] at h2
  simp [hm] at h2

theorem find?_work_pred_agree (ws : List Work) (wid : Nat) (dIds : List Nat)
    (hc : dIds.contains wid = false) :
    ws.find? (fun w => w.work_id == wid && !(dIds.contains w.work_id)) =
      ws.find? (fun w => w.work_id == wid) := by
  induction ws with
  | nil => rfl
  | cons a t ih =>
    have hm : wid ∉ dIds := by simpa using hc
    by_cases ha : a.work_id = wid
    · rw [List.find?_cons_of_pos _ (by simp [ha, hm]), List.find?_cons_of_pos _ (by simp [ha])]
    · rw [List.find?_cons_of_neg _ (by simp [ha]), List.find?_cons_of_neg _ (by simp [ha]), ih]

theorem find_work_eq_find? {s : LibState} {wid : Nat} {work : Work}
    (h : find_work s wid = some work) :
    s.works.find? (fun w => w.work_id == wid) = some work := by
  unfold find_work at h
  by_cases hc : (s.deleted_works.map (fun w => w.work_id)).contains wid = true
  · rw [find?_none_of_contains s.works wid _ hc] at h
    exact absurd h (by simp)
  · rw [Bool.not_eq_true] at hc
    rw [find?_work_pred_agree s.works wid _ hc] at h
    exact h

theorem delete_work_success_eq (s : LibState) (wid : Nat) (work : Work)
    (hf : find_work s wid = some work) (hdel : work.deleted_date = none)
    (hla : s.loans.any (fun l => l.work_id == wid && l.return_date == none) = false) :
    delete_work s wid =
      ({ s with
          works := updateFirst (fun w => w.work_id == wid)
            (fun w => { w with deleted_date := some s.today }) s.works,
          deleted_works := s.deleted_works ++ [{ work with deleted_date := some s.today }],
          copies := s.copies.map (cascadeCopy s.today wid) }, true) := by
  simp only [delete_work, hf]
  rw [if_neg (by simp [hdel]), if_neg (by simp [hla])]

theorem cascadeCopy_work_id (today wid : Nat) (c : Copy) :
    (cascadeCopy today wid c).work_id = c.work_id := by
  unfold cascadeCopy
  split <;> rfl

theorem cascadeCopy_dated (today wid : Nat) (c : Copy)
    (hcw : (cascadeCopy today wid c).work_id = wid) :
    (cascadeCopy today wid c).deleted_date ≠ none := by
  rw [cascadeCopy_work_id] at hcw
  unfold cascadeCopy
  by_cases h : (c.work_id == wid && c.deleted_date == none) = true
  · rw [if_pos h]
    simp
  · rw [if_neg h]
    simp only [Bool.and_eq_true, beq_iff_eq, not_and] at h
    exact fun hn => (h hcw) (by simpa using hn)

theorem cascadeCopy_of_target (today wid : Nat) (c : Copy)
    (hw : c.work_id = wid) (hd : c.deleted_date = none) :
    cascadeCopy today wid c =
      { c with deleted_date := some today,
               status := if c.status == "available" then "deleted" else c.status } := by
  unfold cascadeCopy
  rw [if_pos (by simp [hw, hd])]

theorem cascadeCopy_of_dated (today wid : Nat) (c : Copy) (hd : c.deleted_date ≠ none) :
    cascadeCopy today wid c = c := by
  unfold cascadeCopy
  rw [if_neg (by simp [hd])]

/-- C8 (amended): `deleteWork` fails with no state change when the work is
not found, already deleted (by `deleted_date` or by membership in the
deleted-works set, which `_find_work` also hides), or referenced by an
open loan; on success it sets the work's `deleted_date = today`, appends
the dated work to the deleted-works set, and cascades to exactly the
copies of the work whose `deleted_date` was unset: each such copy gets
`deleted_date = today` and, if it was `"available"`, status `"deleted"`.
A copy already carrying a `deleted_date` is left unchanged — so every copy
of the work ends with `deleted_date` set, but an `"available"` copy with a
pre-existing `deleted_date` keeps status `"available"`, contrary to the
original claim. -/
theorem C8_delete_work_spec (s : LibState) (wid : Nat) :
    (find_work s wid = none → delete_work s wid = (s, false)) ∧
    ∀ work, find_work s wid = some work →
      (work.deleted_date ≠ none → delete_work s wid = (s, false)) ∧
      ((∃ l ∈ s.loans, l.work_id = wid ∧ l.return_date = none) →
        delete_work s wid = (s, false)) ∧
      (work.deleted_date = none →
       (¬ ∃ l ∈ s.loans, l.work_id = wid ∧ l.return_date = none) →
        (delete_work s wid).2 = true ∧
        (delete_work s wid).1.deleted_works =
          s.deleted_works ++ [{ work with deleted_date := some s.today }] ∧
        (delete_work s wid).1.works.find? (fun w => w.work_id == wid) =
          some { work with deleted_date := some s.today } ∧
        (∀ c ∈ (delete_work s wid).1.copies, c.work_id = wid → c.deleted_date ≠ none) ∧
        (∀ c ∈ s.copies, c.work_id = wid → c.deleted_date = none →
          { c with deleted_date := some s.today,
                   status := if c.status == "available" then "deleted" else c.status } ∈
            (delete_work s wid).1.copies) ∧
        (∀ c ∈ s.copies, c.deleted_date ≠ none → c ∈ (delete_work s wid).1.copies)) := by
  constructor
  · intro hf
    simp only [delete_work, hf]
  · intro work hf
    refine ⟨?_, ?_, ?_⟩
    · intro hdd
      simp only [delete_work, hf, if_pos hdd]
    · intro hex
      obtain ⟨l, hlm, hlw, hlr⟩ := hex
      have hla : s.loans.any (fun l => l.work_id == wid && l.return_date == none) = true :=
        List.any_eq_true.2 ⟨l, hlm, by simp [hlw, hlr]⟩
      by_cases hdd : work.deleted_date ≠ none
      · simp only [delete_work, hf, if_pos hdd]
      · simp only [delete_work, hf]
        rw [if_neg hdd, if_pos hla]
    · intro hdel hno
      have hla : s.loans.any (fun l => l.work_id == wid && l.return_date == none) = false := by
        rw [List.any_eq_false]
        intro l hlm hb
        simp only [Bool.and_eq_true, beq_iff_eq] at hb
        exact hno ⟨l, hlm, hb.1, hb.2⟩
      have heq := delete_work_success_eq s wid work hf hdel hla
      refine ⟨by rw [heq], by rw [heq], ?_, ?_, ?_, ?_⟩
      · rw [heq]
        show (updateFirst (fun w => w.work_id == wid)
          (fun w => { w with deleted_date := some s.today }) s.works).find?
            (fun w => w.work_id == wid) = _
        rw [find?_updateFirst (fun w : Work => w.work_id == wid)
          (fun w => { w with deleted_date := some s.today }) (fun a => rfl),
          find_work_eq_find? hf]
        rfl
      · rw [heq]
        intro c hc
        obtain ⟨c0, _, rfl⟩ := List.mem_map.1 hc
        exact cascadeCopy_dated s.today wid c0
      · rw [heq]
        intro c hc hw hd
        have : cascadeCopy s.today wid c =
            { c with deleted_date := some s.today,
                     status := if c.status == "available" then "deleted" else c.status } :=
          cascadeCopy_of_target s.today wid c hw hd
        exact this ▸ List.mem_map_of_mem (cascadeCopy s.today wid) hc
      · rw [heq]
        intro c hc hd
        have : cascadeCopy s.today wid c = c := cascadeCopy_of_dated s.today wid c hd
        exact this ▸ List.mem_map_of_mem (cascadeCopy s.today wid) hc

/-- Witness for C8's amended theorem: deleting work 1 of `exC8wstate`
succeeds, dates the work, appends it to the deleted-works set, and turns
its sole available undated copy into a dated `"deleted"` copy. -/
theorem C8_delete_work_spec_witness :
    (delete_work exC8wstate 1).2 = true ∧
    (delete_work exC8wstate 1).1.deleted_works =
      exC8wstate.deleted_works ++ [{ exWork1 with deleted_date := some 5 }] ∧
    ((⟨1, 1, "available", 1, none⟩ : Copy).work_id = 1 →
      (⟨1, 1, "available", 1, none⟩ : Copy).deleted_date = none →
      { (⟨1, 1, "available", 1, none⟩ : Copy) with
          deleted_date := some (5 : Nat),
          status := if (⟨1, 1, "available", 1, none⟩ : Copy).status == "available"
                    then "deleted" else (⟨1, 1, "available", 1, none⟩ : Copy).status } ∈
        (delete_work exC8wstate 1).1.copies) := by
  have h := (C8_delete_work_spec exC8wstate 1).2 exWork1 (by decide)
  have hs := h.2.2 rfl (by decide)
  exact ⟨hs.1, hs.2.1, fun h1 h2 =>
    hs.2.2.2.2.1 ⟨1, 1, "available", 1, none⟩ (by decide) h1 h2⟩

/-! ### Validator characterizations -/

theorem yearAlt_iff (a b c d : Char) :
    yearAlt a b c d = true ↔
      (isDigitCh a = true ∧ isDigitCh b = true ∧ isDigitCh c = true ∧ isDigitCh d = true ∧
       1931 ≤ yearOf [a, b, c, d] ∧ yearOf [a, b, c, d] ≤ 2025) := by
  simp only [yearAlt, isDigitCh, charBetween, yearOf, digitVal, Bool.or_eq_true,
    Bool.and_eq_true, decide_eq_true_eq,
    show ('0' : Char).toNat = 48 from rfl, show ('1' : Char).toNat = 49 from rfl,
    show ('2' : Char).toNat = 50 from rfl, show ('3' : Char).toNat = 51 from rfl,
    show ('4' : Char).toNat = 52 from rfl, show ('5' : Char).toNat = 53 from rfl,
    show ('9' : Char).toNat = 57 from rfl]
  omega

theorem validate_student_id_iff (sid : String) :
    validate_student_id sid = true ↔
      (sid.data.length = 9 ∧ (∀ c ∈ sid.data, isDigitCh c = true) ∧
       1931 ≤ yearOf sid.data ∧ yearOf sid.data ≤ 2025) := by
  obtain ⟨cs⟩ := sid
  show validate_student_id ⟨cs⟩ = true ↔ _
  rcases cs with _ | ⟨a, cs⟩
  · simp [validate_student_id]
  rcases cs with _ | ⟨b, cs⟩
  · simp [validate_student_id]
  rcases cs with _ | ⟨c, cs⟩
  · simp [validate_student_id]
  rcases cs with _ | ⟨d, cs⟩
  · simp [validate_student_id]
  rcases cs with _ | ⟨e, cs⟩
  · simp [validate_student_id]
  rcases cs with _ | ⟨f, cs⟩
  · simp [validate_student_id]
  rcases cs with _ | ⟨g, cs⟩
  · simp [validate_student_id]
  rcases cs with _ | ⟨h, cs⟩
  · simp [validate_student_id]
  rcases cs with _ | ⟨i, cs⟩
  · simp [validate_student_id]
  rcases cs with _ | ⟨j, cs⟩
  · simp only [validate_student_id, Bool.and_eq_true, yearAlt_iff, List.length_cons,
      List.length_nil, List.mem_cons, List.not_mem_nil, or_false, forall_eq_or_imp,
      forall_eq, yearOf]
    norm_num
    tauto
  · constructor
    · intro hv
      exact absurd hv (by simp [validate_student_id])
    · rintro ⟨hlen, -⟩
      simp only [List.length_cons] at hlen
      omega

theorem validate_name_iff (n : String) :
    validate_name n = true ↔
      (2 ≤ n.length ∧ n.length ≤ 4 ∧ ∀ c ∈ n.data, isHangulCh c = true) := by
  simp [validate_name, Bool.and_eq_true, List.all_eq_true, decide_eq_true_eq, and_assoc]

theorem validate_password_iff (p : String) :
    validate_password p = true ↔
      (4 ≤ p.length ∧ p.length ≤ 20 ∧
       ' ' ∉ p.data ∧ '\t' ∉ p.data ∧ '\n' ∉ p.data) := by
  simp [validate_password, Bool.and_eq_true, decide_eq_true_eq, and_assoc]

theorem validate_student_id_empty : validate_student_id "" = false := rfl

theorem validate_name_empty : validate_name "" = false := rfl

theorem validate_phone_empty : validate_phone "" = false := rfl

theorem validate_password_empty : validate_password "" = false := rfl

theorem register_member_eq (s : LibState) (sid0 name0 phone0 pw0 : String) :
    register_member s sid0 name0 phone0 pw0 =
      if registerOk s (strTrim sid0) (strTrim name0) (strTrim phone0) (strTrim pw0) then
        ({ s with members := s.members ++
            [⟨strTrim sid0, strTrim name0, strTrim phone0, strTrim pw0, s.today⟩] }, true)
      else (s, false) := by
  by_cases hok : registerOk s (strTrim sid0) (strTrim name0) (strTrim phone0)
      (strTrim pw0) = true
  · rw [if_pos hok]
    simp only [registerOk, Bool.and_eq_true] at hok
    obtain ⟨⟨⟨⟨⟨hsid, hname⟩, hphone⟩, hpw⟩, hdup1⟩, hdup2⟩ := hok
    rw [Bool.not_eq_true'] at hdup1 hdup2
    have hne1 : (strTrim sid0 == "") = false := by
      by_cases hbe : strTrim sid0 = ""
      · rw [hbe] at hsid
        exact absurd hsid (by rw [validate_student_id_empty]; simp)
      · simpa using hbe
    have hne2 : (strTrim name0 == "") = false := by
      by_cases hbe : strTrim name0 = ""
      · rw [hbe] at hname
        exact absurd hname (by rw [validate_name_empty]; simp)
      · simpa using hbe
    have hne3 : (strTrim phone0 == "") = false := by
      by_cases hbe : strTrim phone0 = ""
      · rw [hbe] at hphone
        exact absurd hphone (by rw [validate_phone_empty]; simp)
      · simpa using hbe
    have hne4 : (strTrim pw0 == "") = false := by
      by_cases hbe : strTrim pw0 = ""
      · rw [hbe] at hpw
        exact absurd hpw (by rw [validate_password_empty]; simp)
      · simpa using hbe
    simp only [register_member]
    rw [if_neg (by simp [hne1, hne2, hne3, hne4]), if_neg (by simp [hsid]),
      if_neg (by simp [hname]), if_neg (by simp [hphone]), if_neg (by simp [hpw]),
      if_neg (by simp [hdup1]), if_neg (by simp [hdup2])]
  · rw [if_neg hok]
    simp only [register_member]
    split_ifs with h1 h2 h3 h4 h5 h6 h7
    all_goals try rfl
    exfalso
    apply hok
    simp only [registerOk, Bool.and_eq_true]
    rw [Bool.not_eq_true] at h6 h7
    simp only [Bool.not_eq_true, Bool.not_eq_false'] at h2 h3 h4 h5
    exact ⟨⟨⟨⟨⟨h2, h3⟩, h4⟩, h5⟩, by simp [h6]⟩, by simp [h7]⟩

theorem registerOk_iff (s : LibState) (sid name phone pw : String) :
    registerOk s sid name phone pw = true ↔
      (sid.data.length = 9 ∧ (∀ c ∈ sid.data, isDigitCh c = true) ∧
       1931 ≤ yearOf sid.data ∧ yearOf sid.data ≤ 2025 ∧
       2 ≤ name.length ∧ name.length ≤ 4 ∧ (∀ c ∈ name.data, isHangulCh c = true) ∧
       validate_phone phone = true ∧
       4 ≤ pw.length ∧ pw.length ≤ 20 ∧
       ' ' ∉ pw.data ∧ '\t' ∉ pw.data ∧ '\n' ∉ pw.data ∧
       (¬ ∃ m ∈ s.members, m.student_id = sid) ∧
       (¬ ∃ m ∈ s.members, m.phone = phone)) := by
  simp only [registerOk, Bool.and_eq_true, Bool.not_eq_true', List.any_eq_false,
    validate_student_id_iff, validate_name_iff, validate_password_iff, beq_iff_eq,
    not_exists, not_and]
  tauto

/-- C9 (amended): `registerMember` appends exactly one member with
`registered_date = today` iff, after trimming, the student id is nine
digits whose four-digit year is within 1931-2025, the name is two to four
Hangul syllables, the phone matches the source pattern of line 441
(`validate_phone`, which beyond the claimed `010-XXXX-XXXX` and
`01X-XXX-XXXX` also admits `01X-XXXX-XXXX` for `X` in 1-9), the password
is 4-20 characters free of space, tab and newline (other whitespace is not
rejected), and neither the student id nor the phone is already registered;
on any failure the state is unchanged and the call merely reports. -/
theorem C9_register_member_spec (s : LibState) (sid0 name0 phone0 pw0 : String) :
    ((register_member s sid0 name0 phone0 pw0).2 = true →
      (register_member s sid0 name0 phone0 pw0).1 =
        { s with members := s.members ++
            [⟨strTrim sid0, strTrim name0, strTrim phone0, strTrim pw0, s.today⟩] }) ∧
    ((register_member s sid0 name0 phone0 pw0).2 = false →
      (register_member s sid0 name0 phone0 pw0).1 = s) ∧
    ((register_member s sid0 name0 phone0 pw0).2 = true ↔
      ((strTrim sid0).data.length = 9 ∧
       (∀ c ∈ (strTrim sid0).data, isDigitCh c = true) ∧
       1931 ≤ yearOf (strTrim sid0).data ∧ yearOf (strTrim sid0).data ≤ 2025 ∧
       2 ≤ (strTrim name0).length ∧ (strTrim name0).length ≤ 4 ∧
       (∀ c ∈ (strTrim name0).data, isHangulCh c = true) ∧
       validate_phone (strTrim phone0) = true ∧
       4 ≤ (strTrim pw0).length ∧ (strTrim pw0).length ≤ 20 ∧
       ' ' ∉ (strTrim pw0).data ∧ '\t' ∉ (strTrim pw0).data ∧
       '\n' ∉ (strTrim pw0).data ∧
       (¬ ∃ m ∈ s.members, m.student_id = strTrim sid0) ∧
       (¬ ∃ m ∈ s.members, m.phone = strTrim phone0))) := by
  have heq := register_member_eq s sid0 name0 phone0 pw0
  by_cases hok : registerOk s (strTrim sid0) (strTrim name0) (strTrim phone0)
      (strTrim pw0) = true
  · rw [if_pos hok] at heq
    refine ⟨fun _ => by rw [heq], fun hfalse => ?_, ?_⟩
    · rw [heq] at hfalse
      exact absurd hfalse (by simp)
    · rw [heq]
      constructor
      · intro _
        exact (registerOk_iff s _ _ _ _).1 hok
      · intro _
        rfl
  · rw [if_neg hok] at heq
    refine ⟨fun htrue => ?_, fun _ => by rw [heq], ?_⟩
    · rw [heq] at htrue
      exact absurd htrue (by simp)
    · rw [heq]
      constructor
      · intro hcontr
        exact absurd hcontr (by simp)
      · intro hr
        exact absurd ((registerOk_iff s _ _ _ _).2 hr) hok

/-- Witness for C9's amended theorem: a fully valid registration on the
empty catalog succeeds and appends exactly that member dated today. -/
theorem C9_register_member_spec_witness :
    (register_member emptyState "202300001" "홍길동" "010-1234-5678" "pass1234").2 = true ∧
    (register_member emptyState "202300001" "홍길동" "010-1234-5678" "pass1234").1 =
      { emptyState with members := emptyState.members ++
          [⟨"202300001", "홍길동", "010-1234-5678", "pass1234", 7⟩] } := by
  have h := C9_register_member_spec emptyState "202300001" "홍길동" "010-1234-5678" "pass1234"
  have hs : (register_member emptyState "202300001" "홍길동" "010-1234-5678"
      "pass1234").2 = true := h.2.2.2 (by decide)
  exact ⟨hs, h.1 hs⟩

/-! ### Stable-sort characterization for the duplicate-loan tie-break -/

theorem maxLoanDate_cons (a : Nat × Loan) (t : List (Nat × Loan)) :
    maxLoanDate (a :: t) = max a.2.loan_date (maxLoanDate t) := rfl

theorem le_maxLoanDate (g : List (Nat × Loan)) (p : Nat × Loan) (hp : p ∈ g) :
    p.2.loan_date ≤ maxLoanDate g := by
  induction g with
  | nil => simp at hp
  | cons a t ih =>
    rw [maxLoanDate_cons]
    rcases List.mem_cons.1 hp with h | h
    · subst h
      exact Nat.le_max_left _ _
    · exact Nat.le_trans (ih h) (Nat.le_max_right _ _)

theorem sortDesc_head (g : List (Nat × Loan)) (hne : g ≠ []) :
    (sortDesc g).head? =
      g.find? (fun p => decide (maxLoanDate g ≤ p.2.loan_date)) := by
  induction g with
  | nil => exact absurd rfl hne
  | cons x xs ih =>
    cases hxs : xs with
    | nil =>
      subst hxs
      show (insertDesc x (sortDesc [])).head? = _
      simp [sortDesc, insertDesc, maxLoanDate_cons, maxLoanDate]
    | cons y ys =>
      have hxsne : xs ≠ [] := by rw [hxs]; simp
      rw [← hxs]
      have ih' := ih hxsne
      have hsne : sortDesc xs ≠ [] := fun hnil => hxsne ((sortDesc_eq_nil_iff xs).1 hnil)
      obtain ⟨h, t, hht⟩ := List.exists_cons_of_ne_nil hsne
      have hh : xs.find? (fun p => decide (maxLoanDate xs ≤ p.2.loan_date)) = some h := by
        rw [← ih', hht]
        rfl
      have hhmem : h ∈ xs := List.mem_of_find?_eq_some hh
      have hhpred : maxLoanDate xs ≤ h.2.loan_date := by
        have := @List.find?_some _
          (fun p => decide (maxLoanDate xs ≤ p.2.loan_date)) h _ hh
        simpa using this
      have hkey : h.2.loan_date = maxLoanDate xs :=
        Nat.le_antisymm (le_maxLoanDate xs h hhmem) hhpred
      rw [show sortDesc (x :: xs) = insertDesc x (sortDesc xs) from rfl, hht, insertDesc]
      by_cases hcmp : h.2.loan_date ≤ x.2.loan_date
      · rw [if_pos hcmp]
        have hmx : maxLoanDate (x :: xs) = x.2.loan_date := by
          rw [maxLoanDate_cons]
          exact Nat.max_eq_left (hkey ▸ hcmp)
        rw [hmx, List.find?_cons_of_pos _ (by simp)]
        rfl
      · rw [if_neg hcmp]
        have hlt : x.2.loan_date < h.2.loan_date := Nat.lt_of_not_le hcmp
        have hmx : maxLoanDate (x :: xs) = maxLoanDate xs := by
          rw [maxLoanDate_cons]
          exact Nat.max_eq_right (by omega)
        rw [hmx, List.find?_cons_of_neg _ (by simp; omega), hh]
        rfl

theorem groupGo_mem (cid : Nat) :
    ∀ (j : Nat) (ls : List Loan) (p : Nat × Loan), p ∈ groupGo cid j ls →
      j ≤ p.1 ∧ ls.get? (p.1 - j) = some p.2 ∧ p.2.copy_id = cid ∧
        p.2.return_date = none := by
  intro j ls
  induction ls generalizing j with
  | nil => intro p hp; simp [groupGo] at hp
  | cons a t ih =>
    intro p hp
    rw [groupGo] at hp
    split at hp
    next hcond =>
      rcases List.mem_cons.1 hp with h | h
      · subst h
        rw [Bool.and_eq_true, beq_iff_eq] at hcond
        refine ⟨Nat.le_refl j, ?_, hcond.1, by simpa using hcond.2⟩
        simp
      · obtain ⟨h1, h2, h3, h4⟩ := ih (j + 1) p h
        refine ⟨by omega, ?_, h3, h4⟩
        have hstep : p.1 - j = (p.1 - (j + 1)) + 1 := by omega
        rw [hstep]
        simpa using h2
    next =>
      obtain ⟨h1, h2, h3, h4⟩ := ih (j + 1) p hp
      refine ⟨by omega, ?_, h3, h4⟩
      have hstep : p.1 - j = (p.1 - (j + 1)) + 1 := by omega
      rw [hstep]
      simpa using h2

theorem fixDupGo_get? (orig : List Loan) :
    ∀ (j : Nat) (ls : List Loan) (i : Nat),
      (fixDupGo orig j ls).get? i =
        (ls.get? i).map (fun l => if closeCond orig (j + i) l then closeLoan l else l) := by
  intro j ls
  induction ls generalizing j with
  | nil => intro i; simp [fixDupGo]
  | cons a t ih =>
    intro i
    cases i with
    | zero => simp [fixDupGo]
    | succ n =>
      rw [fixDupGo]
      show (fixDupGo orig (j + 1) t).get? n = _
      rw [ih (j + 1) n]
      have hstep : j + 1 + n = j + (n + 1) := by omega
      rw [hstep]
      rfl

/-- C10: when a copy has more than one open loan, the loan kept open by the
duplicate-open-loan repair is deterministically the first, in stored loans
order, among the open loans on that copy attaining the latest `loan_date`
(the embedded sort mirrors CPython's stable descending sort, under which
equal keys keep their stored order), and every other open loan on that
copy is force-closed with `return_date` set to its own `loan_date`. -/
theorem C10_duplicate_resolution (s : LibState) (cid : Nat)
    (hg : 1 < (openGroup s.loans cid).length) :
    ∃ k lk,
      (openGroup s.loans cid).find?
        (fun p => decide (maxLoanDate (openGroup s.loans cid) ≤ p.2.loan_date)) =
          some (k, lk) ∧
      keptIdx s.loans cid = some k ∧
      (fix_duplicate_loans s).loans.get? k = some lk ∧
      ∀ p ∈ openGroup s.loans cid, p.1 ≠ k →
        (fix_duplicate_loans s).loans.get? p.1 = some (closeLoan p.2) := by
  have hne : openGroup s.loans cid ≠ [] := by
    intro h
    rw [h] at hg
    simp at hg
  have hhead := sortDesc_head (openGroup s.loans cid) hne
  have hsne : sortDesc (openGroup s.loans cid) ≠ [] :=
    fun h => hne ((sortDesc_eq_nil_iff _).1 h)
  obtain ⟨q, t, hq⟩ := List.exists_cons_of_ne_nil hsne
  have hfind : (openGroup s.loans cid).find?
      (fun p => decide (maxLoanDate (openGroup s.loans cid) ≤ p.2.loan_date)) = some q := by
    rw [← hhead, hq]
    rfl
  have hkept : keptIdx s.loans cid = some q.1 := by
    unfold keptIdx
    rw [hq]
    rfl
  obtain ⟨-, hget, hcid, hopen⟩ :=
    groupGo_mem cid 0 s.loans q (List.mem_of_find?_eq_some hfind)
  rw [show q.1 - 0 = q.1 from rfl] at hget
  refine ⟨q.1, q.2, by rw [hfind], hkept, ?_, ?_⟩
  · show (fixDupGo s.loans 0 s.loans).get? q.1 = some q.2
    rw [fixDupGo_get? s.loans 0 s.loans q.1, hget]
    have hclose : closeCond s.loans q.1 q.2 = false := by
      simp only [closeCond, hcid]
      rw [hkept]
      simp
    simp [hclose]
  · intro p hp hpk
    obtain ⟨-, hget2, hcid2, hopen2⟩ := groupGo_mem cid 0 s.loans p hp
    rw [show p.1 - 0 = p.1 from rfl] at hget2
    show (fixDupGo s.loans 0 s.loans).get? p.1 = some (closeLoan p.2)
    rw [fixDupGo_get? s.loans 0 s.loans p.1, hget2]
    have hclose : closeCond s.loans p.1 p.2 = true := by
      simp only [closeCond, hcid2]
      rw [hkept]
      simp [hopen2, hg, Ne.symm hpk]
    simp [hclose]

/-- Witness for C10 at `exC10state`: copy 1 carries two open loans with the
same `loan_date`; the kept one is loan 1, the earlier in stored order, and
loan 2 is closed on its own `loan_date`. -/
theorem C10_duplicate_resolution_witness :
    1 < (openGroup exC10state.loans 1).length ∧
    ∃ k lk,
      (openGroup exC10state.loans 1).find?
        (fun p => decide (maxLoanDate (openGroup exC10state.loans 1) ≤ p.2.loan_date)) =
          some (k, lk) ∧
      keptIdx exC10state.loans 1 = some k ∧
      (fix_duplicate_loans exC10state).loans.get? k = some lk ∧
      ∀ p ∈ openGroup exC10state.loans 1, p.1 ≠ k →
        (fix_duplicate_loans exC10state).loans.get? p.1 = some (closeLoan p.2) :=
  ⟨by decide, C10_duplicate_resolution exC10state 1 (by decide)⟩
